import Mathlib

/-!
Verification of the chatapp backend (chatapp.py): a shallow embedding of the
message store, the ingest path, the message encoder and the per-connection
websocket session loop, together with theorems settling the specification
claims about them.
-/

set_option linter.unusedVariables false
set_option linter.unreachableTactic false
set_option linter.unusedTactic false
set_option linter.unnecessarySeqFocus false

namespace Chatapp

/-! ## Constants (chatapp.py lines 23-25) -/

def DEFAULT_NAME : String := "Jane Smith"
def DEFAULT_EMAIL : String := "janes@yorku.ca"
def DEFAULT_TOPIC : String := "chat"

/-! ## Data model

`Message` mirrors the `Message` class: `id` (redis counter value), the text
fields, and `dateStr`, the result of `date.strftime('%x %X')` (the
locale-formatted local date-time string captured at append time; the embedding
carries the formatted string since locale formatting itself is an external
library call). -/

structure Message where
  id : Nat
  name : String
  email : String
  dateStr : String
  topic : String
  content : String
deriving Repr, DecidableEq

/-! ## html.escape

Python `html.escape(s)` (quote=True) replaces the five markup-significant
characters; because `&` is replaced first, the net effect is the per-character
map below. -/

def escapeChar (c : Char) : List Char :=
  if c = '&' then "&amp;".data
  else if c = '<' then "&lt;".data
  else if c = '>' then "&gt;".data
  else if c = '"' then "&quot;".data
  else if c = Char.ofNat 39 then "&#x27;".data
  else [c]

def htmlEscapeList (l : List Char) : List Char :=
  (l.map escapeChar).flatten

def htmlEscape (s : String) : String :=
  String.mk (htmlEscapeList s.data)

/-! ## str(n) and str.zfill(10)

`str` of a non-negative integer, digit characters most-significant first, and
`zfill` padding with leading zeros up to the requested width. -/

def digitChar (n : Nat) : Char :=
  if n = 0 then '0' else if n = 1 then '1' else if n = 2 then '2'
  else if n = 3 then '3' else if n = 4 then '4' else if n = 5 then '5'
  else if n = 6 then '6' else if n = 7 then '7' else if n = 8 then '8'
  else '9'

def natDigits (n : Nat) : List Char :=
  if h : n < 10 then [digitChar n]
  else natDigits (n / 10) ++ [digitChar (n % 10)]
termination_by n
decreasing_by
  exact Nat.div_lt_self (by omega) (by omega)

def natToString (n : Nat) : String :=
  String.mk (natDigits n)

def zfill (w : Nat) (s : String) : String :=
  String.mk (List.replicate (w - s.length) '0' ++ s.data)

/-! ## str.replace("\n", "<br>") -/

def replaceNLList (l : List Char) : List Char :=
  (l.map fun c => if c = '\n' then "<br>".data else [c]).flatten

def replaceNewlines (s : String) : String :=
  String.mk (replaceNLList s.data)

/-! ## json.dumps

Serialization of a list of string-to-string mappings exactly as
`json.dumps` renders it with default options: keys in insertion order,
`", "` and `": "` separators, strings escaped ASCII-only. -/

def hexDigit (n : Nat) : Char :=
  if n < 10 then digitChar n
  else if n = 10 then 'a' else if n = 11 then 'b' else if n = 12 then 'c'
  else if n = 13 then 'd' else if n = 14 then 'e' else 'f'

def hex4 (n : Nat) : List Char :=
  [hexDigit (n / 4096 % 16), hexDigit (n / 256 % 16),
   hexDigit (n / 16 % 16), hexDigit (n % 16)]

def jsonEscapeChar (c : Char) : List Char :=
  if c = '"' then ['\\', '"']
  else if c = '\\' then ['\\', '\\']
  else if c = Char.ofNat 8 then ['\\', 'b']
  else if c = Char.ofNat 9 then ['\\', 't']
  else if c = Char.ofNat 10 then ['\\', 'n']
  else if c = Char.ofNat 12 then ['\\', 'f']
  else if c = Char.ofNat 13 then ['\\', 'r']
  else if 32 ≤ c.toNat ∧ c.toNat ≤ 126 then [c]
  else if c.toNat ≤ 65535 then '\\' :: 'u' :: hex4 c.toNat
  else
    ('\\' :: 'u' :: hex4 (55296 + (c.toNat - 65536) / 1024)) ++
    ('\\' :: 'u' :: hex4 (56320 + (c.toNat - 65536) % 1024))

def jsonString (s : String) : String :=
  String.mk ('"' :: (s.data.map jsonEscapeChar).flatten ++ ['"'])

def joinSep (sep : String) : List String → String
  | [] => ""
  | [x] => x
  | x :: y :: rest => x ++ sep ++ joinSep sep (y :: rest)

def jsonObject (kvs : List (String × String)) : String :=
  "\x7b" ++ joinSep ", " (kvs.map fun kv => jsonString kv.1 ++ ": " ++ jsonString kv.2) ++ "\x7d"

def jsonArray (items : List String) : String :=
  "[" ++ joinSep ", " items ++ "]"

/-! ## encode_messages (chatapp.py lines 42-55) -/

def encodeMessage (m : Message) : List (String × String) :=
  [("id", htmlEscape (zfill 10 (natToString m.id))),
   ("name", htmlEscape m.name),
   ("email", htmlEscape m.email),
   ("date", htmlEscape m.dateStr),
   ("topic", htmlEscape m.topic),
   ("content", replaceNewlines (htmlEscape m.content))]

def encode_messages (msgs : List Message) : String :=
  jsonArray (msgs.map fun m => jsonObject (encodeMessage m))

/-- The encoded `id` field of a message with the given id, exactly as
`encode_messages` computes it. -/
def encodedId (n : Nat) : String :=
  htmlEscape (zfill 10 (natToString n))

/-! ## Ingest path (SendMessage.post, chatapp.py lines 60-88)

`IngestRequest` models the POST parameters; an absent parameter is `none`.
`self.request.get(k, d)` substitutes `d` when absent, and
`self.request.get('content')` yields the empty string. `r.incr` on a fresh
key returns 1, 2, ... and `rpush` appends at the tail. -/

structure IngestRequest where
  topic : Option String
  name : Option String
  email : Option String
  content : Option String

def buildMessage (req : IngestRequest) (dateStr : String) (id : Nat) : Message :=
  { id := id
    topic := req.topic.getD DEFAULT_TOPIC
    name := req.name.getD DEFAULT_NAME
    email := req.email.getD DEFAULT_EMAIL
    content := req.content.getD ""
    dateStr := dateStr }

structure Store where
  counter : Nat
  log : List Message

def emptyStore : Store := { counter := 0, log := [] }

def sendMessage (s : Store) (req : IngestRequest) (dateStr : String) : Store :=
  let m := buildMessage req dateStr (s.counter + 1)
  { counter := s.counter + 1, log := s.log ++ [m] }

def ingestAll (reqs : List (IngestRequest × String)) : Store :=
  reqs.foldl (fun s rd => sendMessage s rd.1 rd.2) emptyStore

/-! ## redis LRANGE

Inclusive range read with tail-relative negative indices, per redis
`lrange` semantics. -/

def lrange {α : Type} (log : List α) (start stop : Int) : List α :=
  let len : Int := log.length
  let s := if start < 0 then max 0 (len + start) else start
  let e := min (if stop < 0 then len + stop else stop) (len - 1)
  if s > e then [] else (log.drop s.toNat).take (e - s + 1).toNat

/-! ## Backfill windowing (handle_request, chatapp.py lines 95-110) -/

def effectiveWindow (first last : Int) : Int × Int :=
  if (last > 0 ∧ last - 50 > first) ∨ last < 0 then (last - 50, last)
  else (first, last)

def fetchMessages (log : List Message) (first last : Int) : List Message :=
  let w := effectiveWindow first last
  lrange log w.1 w.2

/-! ## Session loop (WebSocketConnection.get, chatapp.py lines 94-175)

A client frame is either a well-formed request (valid JSON with numeric
`first_id` and `last_id`) or malformed (anything that makes `json.loads`,
the key lookups or `int()` raise). `handle_request` either produces the
encoded batch to send or fails with a protocol error; the loop body catches
only `IOError` (transport failure) around the non-blocking reads, so any
protocol error escapes the loop. -/

inductive ClientFrame
  | valid (first last : Int)
  | malformed
deriving Repr, DecidableEq

inductive SessionError
  | protocolError
  | transportError
deriving Repr, DecidableEq

def handle_request (log : List Message) : ClientFrame → Except SessionError String
  | .malformed => .error .protocolError
  | .valid first last => .ok (encode_messages (fetchMessages log first last))

/-- Outcome of `uwsgi.websocket_recv_nb()`: a frame, nothing pending, or a
raised `IOError`. -/
inductive RecvResult
  | frame (f : ClientFrame)
  | empty
  | failed
deriving Repr, DecidableEq

/-- A frame delivered on the redis pubsub descriptor: `parse_response` yields
`[kind, channel, payload]`; data frames have kind `"message"`, anything else
(e.g. the `"subscribe"` acknowledgment) is a control frame. -/
structure RedisFrame where
  kind : String
  channel : String
  payload : String
deriving Repr, DecidableEq

/-- The event the loop wakes up on: the websocket descriptor ready, the redis
descriptor ready, or the 3-second keepalive timeout. -/
inductive Event
  | clientReady (r : RecvResult)
  | redisReady (fr : RedisFrame)
  | timeout (r : RecvResult)
deriving Repr, DecidableEq

/-- Result of one loop iteration: continue (with the payloads sent to this
client), return normally after a caught `IOError`, or crash out of the loop
with an uncaught exception. -/
inductive StepResult
  | cont (sends : List String)
  | terminated
  | crashed (e : SessionError)
deriving Repr, DecidableEq

def handleRecv (log : List Message) : RecvResult → StepResult
  | .empty => .cont []
  | .failed => .terminated
  | .frame f =>
    match handle_request log f with
    | .ok out => .cont [out]
    | .error e => .crashed e

def sessionStep (log : List Message) : Event → StepResult
  | .clientReady r => handleRecv log r
  | .timeout r => handleRecv log r
  | .redisReady fr => if fr.kind = "message" then .cont [fr.payload] else .cont []

/-- Does the step result leave the loop with an uncaught exception, i.e. does
a failure propagate past the session's event loop? -/
def StepResult.escapes : StepResult → Bool
  | .crashed _ => true
  | _ => false

inductive SessionOutcome
  | alive
  | terminated
  | crashed (e : SessionError)
deriving Repr, DecidableEq

def runEvents (log : List Message) : List Event → SessionOutcome
  | [] => .alive
  | e :: rest =>
    match sessionStep log e with
    | .cont _ => runEvents log rest
    | .terminated => .terminated
    | .crashed er => .crashed er

end Chatapp

namespace Chatapp

/-! ## Claim theorems -/

/-- C1: for every backfill request: if `last_id > 0` and
`last_id - first_id > 50` the window's start is replaced by `last_id - 50`;
if `last_id < 0` the window used is `[last_id - 50, last_id]`; otherwise the
window passed to the store read is exactly `[first_id, last_id]`. -/
theorem backfill_window_cases (first last : Int) :
    (0 < last → 50 < last - first → effectiveWindow first last = (last - 50, last)) ∧
    (last < 0 → effectiveWindow first last = (last - 50, last)) ∧
    (¬(0 < last ∧ 50 < last - first) → ¬ last < 0 →
      effectiveWindow first last = (first, last)) := by
  unfold effectiveWindow
  refine ⟨fun h1 h2 => ?_, fun h => ?_, fun h1 h2 => ?_⟩
  · rw [if_pos (Or.inl ⟨h1, by omega⟩)]
  · rw [if_pos (Or.inr h)]
  · rw [if_neg]
    rintro (⟨ha, hb⟩ | hc)
    · exact h1 ⟨ha, by omega⟩
    · exact h2 hc

/-- Witness for `backfill_window_cases` at concrete requests covering the
three cases. -/
theorem backfill_window_cases_witness :
    effectiveWindow 0 120 = (70, 120) ∧
    effectiveWindow 7 (-1) = (-51, -1) ∧
    effectiveWindow 3 10 = (3, 10) :=
  ⟨(backfill_window_cases 0 120).1 (by norm_num) (by norm_num),
   (backfill_window_cases 7 (-1)).2.1 (by norm_num),
   (backfill_window_cases 3 10).2.2 (by intro h; omega) (by omega)⟩

/-- A concrete log of `n` messages with ids `1..n`, used for evaluating the
fetch path on explicit inputs. -/
def testLog (n : Nat) : List Message :=
  (List.range n).map fun i =>
    { id := i + 1, name := "n", email := "e", dateStr := "d", topic := "t", content := "c" }

set_option maxRecDepth 8192 in
/-- C2 (code bug): the request `first_id=0, last_id=120` is indeed clamped to
the window `[70, 120]`, but on a log of 121 messages that inclusive window
holds 51 messages, not at most 50 — `lrange` is inclusive on both ends, so the
clamp `first = last - 50` contradicts the code's own comment
"Don't fetch more than 50 messages at once". -/
theorem backfill_fetch_51_messages :
    effectiveWindow 0 120 = (70, 120) ∧
    (fetchMessages (testLog 121) 0 120).length = 51 ∧
    ¬ (fetchMessages (testLog 121) 0 120).length ≤ 50 := by
  refine ⟨rfl, ?_, ?_⟩ <;> decide

/-- C9: whenever `last_id < 0`, the client-supplied `first_id` is ignored:
the window is `[last_id - 50, last_id]` and the fetched batch is independent
of `first_id`, whatever its value. -/
theorem tail_window_ignores_first (log : List Message) (first last : Int)
    (h : last < 0) :
    effectiveWindow first last = (last - 50, last) ∧
    fetchMessages log first last = lrange log (last - 50) last ∧
    ∀ first2 : Int, fetchMessages log first last = fetchMessages log first2 last := by
  have hw : ∀ f : Int, effectiveWindow f last = (last - 50, last) := fun f => by
    unfold effectiveWindow
    rw [if_pos (Or.inr h)]
  refine ⟨hw first, ?_, fun first2 => ?_⟩
  · unfold fetchMessages
    rw [hw first]
  · unfold fetchMessages
    rw [hw first, hw first2]

/-- Witness for `tail_window_ignores_first`: `last_id = -1` with wildly
different `first_id` values (larger than the log length included). -/
theorem tail_window_ignores_first_witness :
    effectiveWindow 1000000 (-1) = (-51, -1) ∧
    fetchMessages (testLog 3) 1000000 (-1) = lrange (testLog 3) (-51) (-1) ∧
    fetchMessages (testLog 3) 1000000 (-1) = fetchMessages (testLog 3) 0 (-1) :=
  ⟨(tail_window_ignores_first (testLog 3) 1000000 (-1) (by norm_num)).1,
   (tail_window_ignores_first (testLog 3) 1000000 (-1) (by norm_num)).2.1,
   (tail_window_ignores_first (testLog 3) 1000000 (-1) (by norm_num)).2.2 0⟩

/-- C6: frames arriving on the redis subscription are filtered on their kind:
a control frame (kind other than `"message"`) is discarded and nothing is sent
to the client, while a data frame's already-encoded payload is forwarded to
the client unchanged. -/
theorem redis_frame_filtering (log : List Message) (fr : RedisFrame) :
    (fr.kind ≠ "message" → sessionStep log (.redisReady fr) = .cont []) ∧
    (fr.kind = "message" → sessionStep log (.redisReady fr) = .cont [fr.payload]) := by
  constructor
  · intro h
    simp [sessionStep, h]
  · intro h
    simp [sessionStep, h]

/-- Witness for `redis_frame_filtering`: the `"subscribe"` acknowledgment is
dropped, a `"message"` frame's payload goes through verbatim. -/
theorem redis_frame_filtering_witness :
    sessionStep [] (.redisReady ⟨"subscribe", "messages", "1"⟩) = .cont [] ∧
    sessionStep [] (.redisReady ⟨"message", "messages", "payload"⟩) = .cont ["payload"] :=
  ⟨(redis_frame_filtering [] ⟨"subscribe", "messages", "1"⟩).1 (by decide),
   (redis_frame_filtering [] ⟨"message", "messages", "payload"⟩).2 rfl⟩

/-- Any number of consecutive empty keepalive timeouts leaves the session
alive: each one only performs a non-blocking read that returns nothing. -/
theorem runEvents_timeouts_alive (log : List Message) (n : Nat) :
    runEvents log (List.replicate n (.timeout .empty)) = .alive := by
  induction n with
  | zero => rfl
  | succ k ih =>
    simpa [List.replicate_succ, runEvents, sessionStep, handleRecv] using ih

/-- C7: a waiting session that sees 3 or more consecutive keepalive timeouts,
with no client frame, no broadcast event and no end-of-connection condition,
is never terminated — every timeout iteration just does a non-blocking read
and the loop continues. -/
theorem timeouts_keep_session_alive (log : List Message) (n : Nat)
    (h : 3 ≤ n) :
    runEvents log (List.replicate n (.timeout .empty)) = SessionOutcome.alive :=
  runEvents_timeouts_alive log n

/-- Witness for `timeouts_keep_session_alive` at exactly 3 timeouts. -/
theorem timeouts_keep_session_alive_witness :
    3 ≤ 3 ∧ runEvents [] (List.replicate 3 (.timeout .empty)) = SessionOutcome.alive :=
  ⟨by omega, timeouts_keep_session_alive [] 3 (by omega)⟩

/-- C5 counterexample: a malformed frame handled on the websocket descriptor
does NOT merely fail that single request — the resulting protocol error is
not caught by the loop (which catches only `IOError`), so the failure escapes
the session's event loop, refuting "the failure does not propagate past the
session boundary". -/
theorem malformed_frame_escapes_session :
    sessionStep [] (.clientReady (.frame .malformed)) = .crashed .protocolError ∧
    (sessionStep [] (.clientReady (.frame .malformed))).escapes = true := by
  constructor <;> rfl

/-- C5 amended: a malformed client frame makes `handle_request` raise a
protocol error which the session loop does not catch (only transport
`IOError` is caught), so the error propagates out of the event loop and ends
that session, whichever way the frame arrived (descriptor-ready read or
keepalive read); a transport failure, by contrast, is caught and terminates
the session normally. The store and every other session are untouched. -/
theorem malformed_frame_crashes_only_this_session (log : List Message) :
    sessionStep log (.clientReady (.frame .malformed)) = .crashed .protocolError ∧
    sessionStep log (.timeout (.frame .malformed)) = .crashed .protocolError ∧
    sessionStep log (.clientReady .failed) = .terminated ∧
    sessionStep log (.timeout .failed) = .terminated := by
  refine ⟨rfl, rfl, rfl, rfl⟩

end Chatapp

namespace Chatapp

/-! ## Ingest invariant lemmas (C3) -/

theorem sendMessage_log (s : Store) (req : IngestRequest) (d : String) :
    (sendMessage s req d).log = s.log ++ [buildMessage req d (s.counter + 1)] ∧
    (sendMessage s req d).counter = s.counter + 1 :=
  ⟨rfl, rfl⟩

theorem foldl_sendMessage_ids (reqs : List (IngestRequest × String)) :
    ∀ s : Store,
      (reqs.foldl (fun s rd => sendMessage s rd.1 rd.2) s).log.map Message.id =
        s.log.map Message.id ++ (List.range reqs.length).map (s.counter + · + 1) ∧
      (reqs.foldl (fun s rd => sendMessage s rd.1 rd.2) s).counter =
        s.counter + reqs.length := by
  induction reqs with
  | nil => intro s; simp
  | cons rd rest ih =>
    intro s
    obtain ⟨h1, h2⟩ := ih (sendMessage s rd.1 rd.2)
    constructor
    · rw [List.foldl_cons, h1]
      simp only [sendMessage, buildMessage, List.map_append, List.map_cons, List.map_nil]
      rw [List.length_cons, List.range_succ_eq_map, List.map_cons, List.map_map,
        List.append_assoc]
      simp only [List.singleton_append, Nat.add_zero]
      apply congrArg (List.map Message.id s.log ++ ·)
      refine List.cons_eq_cons.mpr ⟨rfl, ?_⟩
      apply List.map_congr_left
      intro i hi
      simp only [Function.comp_apply]
      omega
    · rw [List.foldl_cons, h2]
      simp only [sendMessage, List.length_cons]
      omega

/-- C3: ingesting any sequence of N requests into an empty store assigns the
ids 1..N in order: the log holds exactly N messages, the list of ids along the
log is exactly `[1, ..., N]` (so each id occurs exactly once), and the message
at 1-based position k carries id k. -/
theorem ingest_ids_gapless (reqs : List (IngestRequest × String)) :
    (ingestAll reqs).log.length = reqs.length ∧
    (ingestAll reqs).log.map Message.id = (List.range reqs.length).map (· + 1) ∧
    (ingestAll reqs).counter = reqs.length ∧
    ∀ i (h : i < (ingestAll reqs).log.length),
      ((ingestAll reqs).log.get ⟨i, h⟩).id = i + 1 := by
  have h1 := (foldl_sendMessage_ids reqs emptyStore).1
  have h2 := (foldl_sendMessage_ids reqs emptyStore).2
  have hids : (ingestAll reqs).log.map Message.id =
      (List.range reqs.length).map (· + 1) := by
    rw [ingestAll, h1]
    simp only [emptyStore, List.map_nil, List.nil_append]
    apply List.map_congr_left
    intro i hi
    omega
  have hcnt : (ingestAll reqs).counter = reqs.length := by
    rw [ingestAll, h2]
    simp [emptyStore]
  have hlen : (ingestAll reqs).log.length = reqs.length := by
    have := congrArg List.length hids
    simpa using this
  refine ⟨hlen, hids, hcnt, ?_⟩
  intro i h
  have hi : i < ((ingestAll reqs).log.map Message.id).length := by simpa using h
  have heq := List.get_of_eq hids ⟨i, hi⟩
  simp only [List.get_eq_getElem, List.getElem_map, List.getElem_range, Fin.coe_cast] at heq
  simpa [List.get_eq_getElem] using heq

/-- Witness for `ingest_ids_gapless`: two concrete ingests yield ids [1, 2]
and the message at 1-based position 2 has id 2. -/
theorem ingest_ids_gapless_witness :
    1 < (ingestAll [(⟨none, none, none, none⟩, "d"), (⟨none, none, none, none⟩, "d")]).log.length ∧
    ((ingestAll [(⟨none, none, none, none⟩, "d"), (⟨none, none, none, none⟩, "d")]).log.get
      ⟨1, by decide⟩).id = 2 :=
  ⟨by decide,
   (ingest_ids_gapless [(⟨none, none, none, none⟩, "d"), (⟨none, none, none, none⟩, "d")]).2.2.2
     1 (by decide)⟩

/-- C8: the stored message produced by an ingest request keeps the request's
`name`, `email` and `topic` when present and substitutes the defaults
`"Jane Smith"`, `"janes@yorku.ca"` and `"chat"` when absent, while absent
`content` yields the empty string (no default substituted). The first
conjunct ties this to the store: the appended message is exactly
`buildMessage req d (counter + 1)`. -/
theorem ingest_defaults (s : Store) (req : IngestRequest) (d : String) :
    (sendMessage s req d).log = s.log ++ [buildMessage req d (s.counter + 1)] ∧
    (∀ v, req.name = some v → (buildMessage req d (s.counter + 1)).name = v) ∧
    (req.name = none → (buildMessage req d (s.counter + 1)).name = "Jane Smith") ∧
    (∀ v, req.email = some v → (buildMessage req d (s.counter + 1)).email = v) ∧
    (req.email = none → (buildMessage req d (s.counter + 1)).email = "janes@yorku.ca") ∧
    (∀ v, req.topic = some v → (buildMessage req d (s.counter + 1)).topic = v) ∧
    (req.topic = none → (buildMessage req d (s.counter + 1)).topic = "chat") ∧
    (∀ v, req.content = some v → (buildMessage req d (s.counter + 1)).content = v) ∧
    (req.content = none → (buildMessage req d (s.counter + 1)).content = "") := by
  refine ⟨rfl, ?_, ?_, ?_, ?_, ?_, ?_, ?_, ?_⟩ <;>
    first
      | (intro v hv; simp [buildMessage, hv])
      | (intro hv; simp [buildMessage, hv, DEFAULT_NAME, DEFAULT_EMAIL, DEFAULT_TOPIC])

/-- Witness for `ingest_defaults`: a request with `name` present and the
other fields absent. -/
theorem ingest_defaults_witness :
    (buildMessage ⟨none, some "Ada", none, none⟩ "d" 1).name = "Ada" ∧
    (buildMessage ⟨none, some "Ada", none, none⟩ "d" 1).email = "janes@yorku.ca" ∧
    (buildMessage ⟨none, some "Ada", none, none⟩ "d" 1).topic = "chat" ∧
    (buildMessage ⟨none, some "Ada", none, none⟩ "d" 1).content = "" :=
  ⟨(ingest_defaults emptyStore ⟨none, some "Ada", none, none⟩ "d").2.1 "Ada" rfl,
   (ingest_defaults emptyStore ⟨none, some "Ada", none, none⟩ "d").2.2.2.2.1 rfl,
   (ingest_defaults emptyStore ⟨none, some "Ada", none, none⟩ "d").2.2.2.2.2.2.1 rfl,
   (ingest_defaults emptyStore ⟨none, some "Ada", none, none⟩ "d").2.2.2.2.2.2.2.2 rfl⟩

/-! ## Content encoding lemmas (C10) -/

/-- Number of occurrences of the substring `<br>` in a character list. -/
def countBr : List Char → Nat
  | [] => 0
  | c :: rest => (if c = '<' ∧ rest.take 3 = ['b', 'r', '>'] then 1 else 0) + countBr rest

theorem countBr_not_lt (c : Char) (l : List Char) (h : ¬ c = '<') :
    countBr (c :: l) = countBr l := by
  simp only [countBr]
  rw [if_neg (by tauto)]
  omega

theorem htmlEscapeList_no_lt_and_nl (l : List Char) :
    '<' ∉ htmlEscapeList l ∧
    (htmlEscapeList l).count '\n' = l.count '\n' := by
  induction l with
  | nil => simp [htmlEscapeList]
  | cons c rest ih =>
    obtain ⟨ih1, ih2⟩ := ih
    have hexp : htmlEscapeList (c :: rest) = escapeChar c ++ htmlEscapeList rest := by
      simp [htmlEscapeList]
    have hchar : '<' ∉ escapeChar c ∧ (escapeChar c).count '\n' =
        (if c = '\n' then 1 else 0) := by
      by_cases h1 : c = '&'
      · subst h1; decide
      · by_cases h2 : c = '<'
        · subst h2; decide
        · by_cases h3 : c = '>'
          · subst h3; decide
          · by_cases h4 : c = '"'
            · subst h4; decide
            · by_cases h5 : c = Char.ofNat 39
              · subst h5; decide
              · rw [escapeChar, if_neg h1, if_neg h2, if_neg h3, if_neg h4, if_neg h5]
                constructor
                · simp
                  intro hc
                  exact h2 hc.symm
                · by_cases h6 : c = '\n' <;> simp [h6, List.count_cons] <;> omega
    constructor
    · rw [hexp]
      intro hmem
      rcases List.mem_append.mp hmem with hm | hm
      · exact hchar.1 hm
      · exact ih1 hm
    · rw [hexp, List.count_append, ih2, hchar.2]
      by_cases h6 : c = '\n' <;> simp [h6, List.count_cons] <;> omega

theorem countBr_replaceNL (l : List Char) (h : '<' ∉ l) :
    countBr (replaceNLList l) = l.count '\n' := by
  induction l with
  | nil => simp [replaceNLList, countBr]
  | cons c rest ih =>
    have hrest : '<' ∉ rest := fun hm => h (List.mem_cons_of_mem c hm)
    have hexp : replaceNLList (c :: rest) =
        (if c = '\n' then "<br>".data else [c]) ++ replaceNLList rest := by
      simp [replaceNLList]
    by_cases hc : c = '\n'
    · rw [hexp, if_pos hc]
      show countBr ('<' :: 'b' :: 'r' :: '>' :: replaceNLList rest) = _
      simp only [countBr]
      rw [if_pos (⟨trivial, rfl⟩ :
          True ∧ List.take 3 ('b' :: 'r' :: '>' :: replaceNLList rest) = ['b', 'r', '>'])]
      rw [if_neg (by rintro ⟨hx, -⟩; exact absurd hx (by decide)),
        if_neg (by rintro ⟨hx, -⟩; exact absurd hx (by decide)),
        if_neg (by rintro ⟨hx, -⟩; exact absurd hx (by decide)), ih hrest]
      subst hc
      simp [List.count_cons]
      omega
    · have hclt : ¬ c = '<' := fun he => h (by simp [he])
      rw [hexp, if_neg hc, List.singleton_append, countBr_not_lt c _ hclt, ih hrest]
      simp [List.count_cons, hc] <;> omega

/-- C10: in the encoded `content` field, HTML-escaping happens before newline
replacement, so the number of `<br>` markers in the output equals the number
of newline characters in the original content — every `<br>` in the encoding
comes from a newline, and a literal `<br>` typed into the content (second
conjunct) is neutralized into escaped text. -/
theorem content_br_iff_newline :
    (∀ content : String,
      countBr (replaceNewlines (htmlEscape content)).data = content.data.count '\n') ∧
    replaceNewlines (htmlEscape "<br>") = "&lt;br&gt;" := by
  constructor
  · intro content
    show countBr (replaceNLList (htmlEscapeList content.data)) = content.data.count '\n'
    obtain ⟨h1, h2⟩ := htmlEscapeList_no_lt_and_nl content.data
    rw [countBr_replaceNL _ h1, h2]
  · rfl

/-! ## Encoding lemmas (C4)

The `id` field is `str(id).zfill(10)` HTML-escaped; digits are untouched by
escaping, and on ids below `10^10` the zero-padding makes numeric order agree
with lexicographic order of the encoded strings. -/

def isDig (c : Char) : Prop := 48 ≤ c.toNat ∧ c.toNat ≤ 57

instance (c : Char) : Decidable (isDig c) :=
  inferInstanceAs (Decidable (48 ≤ c.toNat ∧ c.toNat ≤ 57))

theorem char_lt_iff_toNat (a b : Char) : a < b ↔ a.toNat < b.toNat := by
  simp [Char.lt_def, UInt32.lt_def, Char.toNat, UInt32.toNat, BitVec.lt_def]

theorem digitChar_isDig (n : Nat) : isDig (digitChar n) := by
  unfold digitChar
  split_ifs <;> decide

theorem digitChar_toNat (n : Nat) (h : n ≤ 9) : (digitChar n).toNat = 48 + n := by
  interval_cases n <;> decide

theorem escapeChar_of_isDig (c : Char) (h : isDig c) : escapeChar c = [c] := by
  obtain ⟨h1, h2⟩ := h
  have ha : ¬ c = '&' := by rintro rfl; exact absurd h1 (by decide)
  have hb : ¬ c = '<' := by rintro rfl; exact absurd h2 (by decide)
  have hc : ¬ c = '>' := by rintro rfl; exact absurd h2 (by decide)
  have hd : ¬ c = '"' := by rintro rfl; exact absurd h1 (by decide)
  have he : ¬ c = Char.ofNat 39 := by rintro rfl; exact absurd h1 (by decide)
  rw [escapeChar, if_neg ha, if_neg hb, if_neg hc, if_neg hd, if_neg he]

theorem htmlEscapeList_of_forall_self (l : List Char)
    (h : ∀ c ∈ l, escapeChar c = [c]) : htmlEscapeList l = l := by
  induction l with
  | nil => rfl
  | cons c rest ih =>
    have : htmlEscapeList (c :: rest) = escapeChar c ++ htmlEscapeList rest := by
      simp [htmlEscapeList]
    rw [this, h c (List.mem_cons_self c rest), ih (fun d hd => h d (List.mem_cons_of_mem c hd)),
      List.singleton_append]

theorem mem_natDigits_isDig (n : Nat) : ∀ c ∈ natDigits n, isDig c := by
  induction n using natDigits.induct with
  | case1 n h =>
    rw [natDigits, dif_pos h]
    intro c hc
    rw [List.mem_singleton] at hc
    subst hc
    exact digitChar_isDig n
  | case2 n h ih =>
    rw [natDigits, dif_neg h]
    intro c hc
    rcases List.mem_append.mp hc with hm | hm
    · exact ih c hm
    · rw [List.mem_singleton] at hm
      subst hm
      exact digitChar_isDig (n % 10)

/-- The numeric value of a most-significant-first digit string. -/
def digitsVal : List Char → Nat
  | [] => 0
  | c :: l => (c.toNat - 48) * 10 ^ l.length + digitsVal l

theorem digitsVal_append (l : List Char) (c : Char) :
    digitsVal (l ++ [c]) = 10 * digitsVal l + (c.toNat - 48) := by
  induction l with
  | nil => simp [digitsVal]
  | cons d rest ih =>
    show (d.toNat - 48) * 10 ^ (rest ++ [c]).length + digitsVal (rest ++ [c]) = _
    rw [ih, List.length_append]
    show (d.toNat - 48) * 10 ^ (rest.length + 1) + _ = _
    rw [pow_succ]
    ring_nf
    rw [digitsVal]
    ring

theorem digitsVal_natDigits (n : Nat) : digitsVal (natDigits n) = n := by
  induction n using natDigits.induct with
  | case1 n h =>
    rw [natDigits, dif_pos h]
    show ((digitChar n).toNat - 48) * 10 ^ ([] : List Char).length + digitsVal [] = n
    rw [digitChar_toNat n (by omega)]
    simp [digitsVal]
  | case2 n h ih =>
    rw [natDigits, dif_neg h, digitsVal_append, ih, digitChar_toNat (n % 10) (by omega)]
    omega

theorem digitsVal_lt (l : List Char) (h : ∀ c ∈ l, isDig c) :
    digitsVal l < 10 ^ l.length := by
  induction l with
  | nil => simp [digitsVal]
  | cons c rest ih =>
    have hc := h c (List.mem_cons_self c rest)
    have hrest := ih (fun d hd => h d (List.mem_cons_of_mem c hd))
    show (c.toNat - 48) * 10 ^ rest.length + digitsVal rest < 10 ^ (c :: rest).length
    rw [List.length_cons, pow_succ]
    have h9 : c.toNat - 48 ≤ 9 := by obtain ⟨_, h2⟩ := hc; omega
    have : (c.toNat - 48) * 10 ^ rest.length ≤ 9 * 10 ^ rest.length :=
      Nat.mul_le_mul_right _ h9
    omega

theorem natDigits_length_le (k : Nat) : ∀ n : Nat, 1 ≤ k → n < 10 ^ k →
    (natDigits n).length ≤ k := by
  induction k with
  | zero => intro n h; omega
  | succ j ih =>
    intro n hk hn
    by_cases h : n < 10
    · rw [natDigits, dif_pos h]
      simp
    · rw [natDigits, dif_neg h]
      have hj : 1 ≤ j := by
        by_contra hcon
        have : j = 0 := by omega
        subst this
        simp at hn
        omega
      have hdiv : n / 10 < 10 ^ j := by
        rw [Nat.div_lt_iff_lt_mul (by omega)]
        calc n < 10 ^ (j + 1) := hn
          _ = 10 ^ j * 10 := by rw [pow_succ]
      have := ih (n / 10) hj hdiv
      rw [List.length_append]
      simp only [List.length_singleton]
      omega

/-- The zero-padded digit string of an id, as a character list. -/
def padDigits (n : Nat) : List Char :=
  List.replicate (10 - (natDigits n).length) '0' ++ natDigits n

theorem mem_padDigits_isDig (n : Nat) : ∀ c ∈ padDigits n, isDig c := by
  intro c hc
  rcases List.mem_append.mp hc with hm | hm
  · rw [List.eq_of_mem_replicate hm]
    decide
  · exact mem_natDigits_isDig n c hm

theorem padDigits_length (n : Nat) (h : n < 10 ^ 10) : (padDigits n).length = 10 := by
  have := natDigits_length_le 10 n (by omega) h
  unfold padDigits
  rw [List.length_append, List.length_replicate]
  omega

theorem digitsVal_replicate_zero (k : Nat) (l : List Char) :
    digitsVal (List.replicate k '0' ++ l) = digitsVal l := by
  induction k with
  | zero => simp
  | succ j ih =>
    rw [List.replicate_succ, List.cons_append]
    show (('0' : Char).toNat - 48) * 10 ^ (List.replicate j '0' ++ l).length +
      digitsVal (List.replicate j '0' ++ l) = digitsVal l
    rw [ih]
    have h0 : ('0' : Char).toNat - 48 = 0 := by decide
    rw [h0]
    simp

theorem digitsVal_padDigits (n : Nat) : digitsVal (padDigits n) = n := by
  rw [padDigits, digitsVal_replicate_zero, digitsVal_natDigits]

theorem val_lt_of_head_lt (a b : Char) (l₁ l₂ : List Char)
    (hlen : l₁.length = l₂.length) (ha : isDig a) (hb : isDig b)
    (h1 : ∀ c ∈ l₁, isDig c) (hab : a.toNat < b.toNat) :
    digitsVal (a :: l₁) < digitsVal (b :: l₂) := by
  have hv1 : digitsVal l₁ < 10 ^ l₁.length := digitsVal_lt l₁ h1
  have hcoef : a.toNat - 48 + 1 ≤ b.toNat - 48 := by
    obtain ⟨ha1, _⟩ := ha
    omega
  calc digitsVal (a :: l₁) = (a.toNat - 48) * 10 ^ l₁.length + digitsVal l₁ := rfl
    _ < (a.toNat - 48 + 1) * 10 ^ l₁.length := by
        rw [Nat.add_mul, Nat.one_mul]
        omega
    _ ≤ (b.toNat - 48) * 10 ^ l₁.length := Nat.mul_le_mul_right _ hcoef
    _ = (b.toNat - 48) * 10 ^ l₂.length := by rw [hlen]
    _ ≤ digitsVal (b :: l₂) := Nat.le_add_right _ _

theorem lex_iff_digitsVal (l₁ : List Char) : ∀ l₂ : List Char,
    l₁.length = l₂.length → (∀ c ∈ l₁, isDig c) → (∀ c ∈ l₂, isDig c) →
    (List.Lex (· < ·) l₁ l₂ ↔ digitsVal l₁ < digitsVal l₂) := by
  induction l₁ with
  | nil =>
    intro l₂ hlen h1 h2
    have : l₂ = [] := List.length_eq_zero.mp hlen.symm
    subst this
    constructor
    · intro h; cases h
    · intro h; simp [digitsVal] at h
  | cons a l₁ ih =>
    intro l₂ hlen h1 h2
    cases l₂ with
    | nil => simp at hlen
    | cons b l₂ =>
      have hlen' : l₁.length = l₂.length := by simpa using hlen
      have ha := h1 a (List.mem_cons_self a l₁)
      have hb := h2 b (List.mem_cons_self b l₂)
      have h1' : ∀ c ∈ l₁, isDig c := fun c hc => h1 c (List.mem_cons_of_mem a hc)
      have h2' : ∀ c ∈ l₂, isDig c := fun c hc => h2 c (List.mem_cons_of_mem b hc)
      constructor
      · intro h
        cases h with
        | rel hab =>
          exact val_lt_of_head_lt a b l₁ l₂ hlen' ha hb h1'
            ((char_lt_iff_toNat a b).mp hab)
        | cons htail =>
          have hv := (ih l₂ hlen' h1' h2').mp htail
          show (a.toNat - 48) * 10 ^ l₁.length + digitsVal l₁ <
            (a.toNat - 48) * 10 ^ l₂.length + digitsVal l₂
          rw [hlen']
          omega
      · intro hv
        rcases lt_trichotomy a b with hab | hab | hab
        · exact List.Lex.rel hab
        · subst hab
          apply List.Lex.cons
          apply (ih l₂ hlen' h1' h2').mpr
          have heq : (10 : Nat) ^ l₁.length = 10 ^ l₂.length := by rw [hlen']
          have hv' : (a.toNat - 48) * 10 ^ l₁.length + digitsVal l₁ <
              (a.toNat - 48) * 10 ^ l₂.length + digitsVal l₂ := hv
          rw [heq] at hv'
          omega
        · exfalso
          have := val_lt_of_head_lt b a l₂ l₁ hlen'.symm hb ha h2'
            ((char_lt_iff_toNat b a).mp hab)
          have hv2 : digitsVal (b :: l₂) < digitsVal (a :: l₁) := this
          omega

theorem encodedId_eq_padDigits (n : Nat) : encodedId n = String.mk (padDigits n) := by
  show htmlEscape (zfill 10 (natToString n)) = String.mk (padDigits n)
  have hdata : (zfill 10 (natToString n)).data = padDigits n := rfl
  show String.mk (htmlEscapeList (zfill 10 (natToString n)).data) = String.mk (padDigits n)
  rw [hdata, htmlEscapeList_of_forall_self _
    (fun c hc => escapeChar_of_isDig c (mem_padDigits_isDig n c hc))]

/-- The per-message mapping as the specification's encoding contract words
it: `id` the zero-padded width-10 decimal string of the id, `name`, `email`,
`topic` HTML-escaped, `date` the locale-formatted date-time string as is, and
`content` HTML-escaped first and then newlines replaced by `<br>`. -/
def specMessageMapping (m : Message) : List (String × String) :=
  [("id", zfill 10 (natToString m.id)),
   ("name", htmlEscape m.name),
   ("email", htmlEscape m.email),
   ("date", m.dateStr),
   ("topic", htmlEscape m.topic),
   ("content", replaceNewlines (htmlEscape m.content))]

theorem encodeMessage_eq_spec (m : Message)
    (hdate : ∀ c ∈ m.dateStr.data, escapeChar c = [c]) :
    encodeMessage m = specMessageMapping m := by
  unfold encodeMessage specMessageMapping
  have hid : htmlEscape (zfill 10 (natToString m.id)) = zfill 10 (natToString m.id) := by
    show String.mk (htmlEscapeList (zfill 10 (natToString m.id)).data) = _
    have hdata : (zfill 10 (natToString m.id)).data = padDigits m.id := rfl
    rw [hdata, htmlEscapeList_of_forall_self _
      (fun c hc => escapeChar_of_isDig c (mem_padDigits_isDig m.id c hc))]
    rfl
  have hd : htmlEscape m.dateStr = m.dateStr := by
    show String.mk (htmlEscapeList m.dateStr.data) = m.dateStr
    rw [htmlEscapeList_of_forall_self _ hdate]
  rw [hid, hd]

/-- C4: the encoder produces the JSON-array serialization (with Python's
`json.dumps` formatting) of one mapping per message, whose fields are: `id`
the width-10 zero-padded decimal string of the id, `name`, `email`, `topic`
HTML-escaped, `date` the locale-formatted local date-time string (assumed, as
such strings are, to be free of markup-significant characters, under which
escaping is the identity), and `content` HTML-escaped first and then each
newline replaced by `<br>`; moreover for ids below `10^10` (the width-10
regime) numeric order of ids coincides with lexicographic order of the
encoded id strings. -/
theorem encode_messages_spec :
    (∀ msgs : List Message,
      (∀ m ∈ msgs, ∀ c ∈ m.dateStr.data, escapeChar c = [c]) →
      encode_messages msgs =
        jsonArray (msgs.map fun m => jsonObject (specMessageMapping m))) ∧
    (∀ a b : Nat, a < 10 ^ 10 → b < 10 ^ 10 →
      (a < b ↔ encodedId a < encodedId b)) := by
  constructor
  · intro msgs h
    unfold encode_messages
    congr 1
    apply List.map_congr_left
    intro m hm
    rw [encodeMessage_eq_spec m (h m hm)]
  · intro a b hA hB
    rw [encodedId_eq_padDigits, encodedId_eq_padDigits, String.lt_iff_toList_lt]
    have htl : ∀ l : List Char, (String.mk l).toList = l := fun l => rfl
    rw [htl, htl]
    have hlex : (padDigits a < padDigits b) =
        List.Lex (· < ·) (padDigits a) (padDigits b) := rfl
    rw [hlex, lex_iff_digitsVal (padDigits a) (padDigits b)
      (by rw [padDigits_length a hA, padDigits_length b hB])
      (mem_padDigits_isDig a) (mem_padDigits_isDig b),
      digitsVal_padDigits, digitsVal_padDigits]

/-- Witness for `encode_messages_spec`: a concrete message with a concrete
locale-formatted date, and the concrete id pair (3, 7). -/
theorem encode_messages_spec_witness :
    encode_messages [⟨1, "A", "a@b.c", "01/21/23 05:30:00", "chat", "hi"⟩] =
      jsonArray [jsonObject
        (specMessageMapping ⟨1, "A", "a@b.c", "01/21/23 05:30:00", "chat", "hi"⟩)] ∧
    (3 < 7 ↔ encodedId 3 < encodedId 7) :=
  ⟨encode_messages_spec.1 [⟨1, "A", "a@b.c", "01/21/23 05:30:00", "chat", "hi"⟩]
    (by intro m hm; rw [List.mem_singleton] at hm; subst hm; decide),
   encode_messages_spec.2 3 7 (by norm_num) (by norm_num)⟩

end Chatapp
